import Mathlib

/-!
Shallow embedding of the Jinja2CppLight templating engine
(`src/src/Jinja2CppLight.h`): the `Value` hierarchy, the name→value
context, the substitution engine, and the control-node tree with its
`render` traversal.
-/

set_option maxHeartbeats 1000000

namespace Jinja2CppLight

/-- The `Value` hierarchy: `IntValue`, `FloatValue`, `StringValue`
(Jinja2CppLight.h lines 36-80). -/
inductive Value where
  | IntValue (value : Int)
  | FloatValue (value : Float)
  | StringValue (value : String)

/-- `IntValue::render` / `FloatValue::render` / `StringValue::render`:
textual form of the scalar. -/
def Value.render : Value → String
  | .IntValue v => toString v
  | .FloatValue v => toString v
  | .StringValue v => v

/-- `isTrue()` of each `Value` subclass: `value != 0`, `value != 0.0`,
`!value.empty()` (Jinja2CppLight.h lines 51-53, 64-66, 77-79). -/
def Value.isTrue : Value → Bool
  | .IntValue v => v != 0
  | .FloatValue v => v != 0.0
  | .StringValue v => !v.isEmpty

/-- The rendering context: C++ `std::map< std::string, Value * > valueByName`,
embedded as an association list with unique keys maintained by the
operations below. -/
abbrev Ctx := List (String × Value)

/-- `valueByName.find(name)`: the value bound to `name`, if any. -/
def Ctx.lookup (name : String) : Ctx → Option Value
  | [] => none
  | (k, v) :: rest => if k == name then some v else Ctx.lookup name rest

/-- `valueByName[name] = value`: bind `name`, replacing any existing entry. -/
def Ctx.set (name : String) (v : Value) : Ctx → Ctx
  | [] => [(name, v)]
  | (k, w) :: rest =>
      if k == name then (name, v) :: rest else (k, w) :: Ctx.set name v rest

/-- `valueByName.erase(name)`: remove the entry bound to `name`. -/
def Ctx.erase (name : String) : Ctx → Ctx
  | [] => []
  | (k, w) :: rest =>
      if k == name then Ctx.erase name rest else (k, w) :: Ctx.erase name rest

/-- Identifier trimming: surrounding whitespace stripped from the text found
between the substitution delimiters. -/
def trimChars (l : List Char) : List Char :=
  ((l.dropWhile Char.isWhitespace).reverse.dropWhile Char.isWhitespace).reverse

/-- Modelled from the spec: the body of `Template::doSubstitutions` is
declared in `Jinja2CppLight.h` (line 107) but defined outside `src/`.
Per spec §4.2: scan the fragment for pairs of opening and closing double-brace
delimiters; for each pair, the enclosed identifier (trimmed of surrounding
whitespace) is looked up in the context and its rendered text spliced in;
text outside delimiters passes through unchanged; an unbound identifier or
an unterminated opener fails with a `RenderError`.  The second argument is
`none` while scanning plain text and `some acc` (accumulated identifier
characters, reversed) while inside a substitution tag. -/
def scanSub : List Char → Option (List Char) → Ctx → Except String (List Char)
  | [], none, _ => .ok []
  | [], some _, _ => .error "unterminated substitution tag"
  | '{' :: '{' :: rest, none, ctx => scanSub rest (some []) ctx
  | '}' :: '}' :: rest, some acc, ctx =>
      match Ctx.lookup (trimChars acc.reverse).asString ctx with
      | none => .error ("variable " ++ (trimChars acc.reverse).asString ++ " not found")
      | some v =>
          match scanSub rest none ctx with
          | .error e => .error e
          | .ok tail => .ok (v.render.data ++ tail)
  | c :: rest, none, ctx =>
      match scanSub rest none ctx with
      | .error e => .error e
      | .ok tail => .ok (c :: tail)
  | c :: rest, some acc, ctx => scanSub rest (some (c :: acc)) ctx

/-- Modelled from the spec: `Template::doSubstitutions` (header line 107;
body outside `src/`), the substitution engine run over one flat fragment.
The context is passed by value in the header's signature, so substitution
never mutates the caller's context. -/
def doSubstitutions (sourceCode : String) (valueByName : Ctx) : Except String String :=
  match scanSub sourceCode.data none valueByName with
  | .error e => .error e
  | .ok l => .ok l.asString

/-- Modelled from the spec: `IfSection::computeExpression` is declared in
`Jinja2CppLight.h` (line 251) but defined outside `src/`.  Per spec §4.3 the
condition is true iff the variable name exists as a key in the context and
its `isTrue()` holds, inverted when the negation flag is set; an absent
variable counts as false. -/
def computeExpression (isNeg : Bool) (variableName : String) (ctx : Ctx) : Bool :=
  let base :=
    match Ctx.lookup variableName ctx with
    | some v => v.isTrue
    | none => false
  if isNeg then !base else base

/-- The index sequence of `for( int i = loopStart; i < loopEnd; i++ )`
(Jinja2CppLight.h line 151). -/
def intRange (loopStart loopEnd : Int) : List Int :=
  (List.range (loopEnd - loopStart).toNat).map (fun j : Nat => loopStart + (j : Int))

/-- The parsed control-node tree (`ControlSection` and its concrete
subclasses `Root`, `ForSection`, `Code`, `IfSection`). -/
inductive ControlSection where
  | Root (sections : List ControlSection)
  | ForSection (varName : String) (loopStart loopEnd : Int)
      (sections : List ControlSection)
  | Code (templateCode : String)
  | IfSection (isNeg : Bool) (variableName : String)
      (sections : List ControlSection)

/-- Outcome of a `render` call.  C++ passes `valueByName` by reference and
signals failure by throwing `render_error`, so both the success and the
error case carry the context as it stands when control leaves `render`. -/
abbrev RenderResult := Except (String × Ctx) (String × Ctx)

/-- The body of the `for` loop in `ForSection::render` (lines 151-158):
for each index, bind the loop variable to `IntValue i`, render the body
(given as the function argument), erase the loop variable, and continue,
concatenating the produced text.  An exception from the body propagates
with the binding still in place. -/
def loopIter (f : Ctx → RenderResult) (varName : String) :
    List Int → Ctx → RenderResult
  | [], ctx => .ok ("", ctx)
  | i :: rest, ctx =>
      match f (Ctx.set varName (.IntValue i) ctx) with
      | .error e => .error e
      | .ok (str1, ctx1) =>
          match loopIter f varName rest (Ctx.erase varName ctx1) with
          | .error e => .error e
          | .ok (str2, ctx2) => .ok (str1 ++ str2, ctx2)

mutual

/-- `render( valueByName )` of each concrete `ControlSection`:
`Code::render` (lines 186-192), `Root::render` (lines 199-205),
`IfSection::render` (lines 221-231), `ForSection::render` (lines 145-160). -/
def ControlSection.render : ControlSection → Ctx → RenderResult
  | .Code templateCode, ctx =>
      match doSubstitutions templateCode ctx with
      | .error e => .error (e, ctx)
      | .ok s => .ok (s, ctx)
  | .Root sections, ctx => renderSections sections ctx
  | .IfSection isNeg variableName sections, ctx =>
      if computeExpression isNeg variableName ctx then renderSections sections ctx
      else .ok ("", ctx)
  | .ForSection varName loopStart loopEnd sections, ctx =>
      if (Ctx.lookup varName ctx).isSome then
        .error ("variable " ++ varName ++ " already exists in this context", ctx)
      else
        loopIter (fun c => renderSections sections c) varName
          (intRange loopStart loopEnd) ctx

/-- In-order rendering of a `sections` vector, concatenating the children's
text and threading the by-reference context. -/
def renderSections : List ControlSection → Ctx → RenderResult
  | [], ctx => .ok ("", ctx)
  | s :: rest, ctx =>
      match s.render ctx with
      | .error e => .error e
      | .ok (str1, ctx1) =>
          match renderSections rest ctx1 with
          | .error e => .error e
          | .ok (str2, ctx2) => .ok (str1 ++ str2, ctx2)

end

/-- Extensional equality of contexts as name→value maps: same lookup result
at every name. -/
def Ctx.Equiv (a b : Ctx) : Prop := ∀ k, Ctx.lookup k a = Ctx.lookup k b

/-- Agreement of two render outcomes: same constructor, same output text or
error message, and extensionally equal contexts. -/
def ResultEquiv : RenderResult → RenderResult → Prop
  | .ok p, .ok q => p.1 = q.1 ∧ Ctx.Equiv p.2 q.2
  | .error p, .error q => p.1 = q.1 ∧ Ctx.Equiv p.2 q.2
  | .ok _, .error _ => False
  | .error _, .ok _ => False

/-- Whether a character list contains the two-character closing delimiter
of a substitution tag. -/
def containsClose : List Char → Bool
  | '}' :: '}' :: _ => true
  | _ :: rest => containsClose rest
  | [] => false

mutual

/-- Step bound for the render traversal of one node: a function of the
tree's size and of the integer loop ranges. -/
def cost : ControlSection → Nat
  | .Code _ => 1
  | .Root sections => 1 + costList sections
  | .IfSection _ _ sections => 1 + costList sections
  | .ForSection _ loopStart loopEnd sections =>
      1 + (loopEnd - loopStart).toNat * (1 + costList sections)

/-- Step bound for rendering a `sections` vector in order. -/
def costList : List ControlSection → Nat
  | [] => 0
  | s :: rest => 1 + cost s + costList rest

end

mutual

/-- The render traversal instrumented with a fuel counter: one unit of fuel
is consumed at each node, and exhausted fuel yields `none`.  Used to state
that the traversal terminates within a bound computed from the tree. -/
def renderFuel : Nat → ControlSection → Ctx → Option RenderResult
  | 0, _, _ => none
  | _fuel + 1, .Code templateCode, ctx =>
      some (match doSubstitutions templateCode ctx with
            | .error e => .error (e, ctx)
            | .ok s => .ok (s, ctx))
  | fuel + 1, .Root sections, ctx => renderSectionsFuel fuel sections ctx
  | fuel + 1, .IfSection isNeg variableName sections, ctx =>
      if computeExpression isNeg variableName ctx then
        renderSectionsFuel fuel sections ctx
      else some (.ok ("", ctx))
  | fuel + 1, .ForSection varName loopStart loopEnd sections, ctx =>
      if (Ctx.lookup varName ctx).isSome then
        some (.error ("variable " ++ varName ++ " already exists in this context", ctx))
      else
        loopIterFuel fuel varName sections (intRange loopStart loopEnd) ctx
termination_by fuel _node _ctx => (fuel, 0)

/-- Fuel-instrumented in-order rendering of a `sections` vector. -/
def renderSectionsFuel : Nat → List ControlSection → Ctx → Option RenderResult
  | _, [], ctx => some (.ok ("", ctx))
  | fuel, s :: rest, ctx =>
      match renderFuel fuel s ctx with
      | none => none
      | some (.error e) => some (.error e)
      | some (.ok (str1, ctx1)) =>
          match renderSectionsFuel fuel rest ctx1 with
          | none => none
          | some (.error e) => some (.error e)
          | some (.ok (str2, ctx2)) => some (.ok (str1 ++ str2, ctx2))
termination_by fuel ss _ctx => (fuel, ss.length + 1)

/-- Fuel-instrumented loop body of `ForSection::render`. -/
def loopIterFuel : Nat → String → List ControlSection → List Int → Ctx →
    Option RenderResult
  | _, _, _, [], ctx => some (.ok ("", ctx))
  | fuel, varName, body, i :: rest, ctx =>
      match renderSectionsFuel fuel body (Ctx.set varName (.IntValue i) ctx) with
      | none => none
      | some (.error e) => some (.error e)
      | some (.ok (str1, ctx1)) =>
          match loopIterFuel fuel varName body rest (Ctx.erase varName ctx1) with
          | none => none
          | some (.error e) => some (.error e)
          | some (.ok (str2, ctx2)) => some (.ok (str1 ++ str2, ctx2))
termination_by fuel _varName body is _ctx => (fuel, body.length + is.length + 2)

end

/-! ### Context lemmas -/

theorem Ctx.lookup_set (k name : String) (v : Value) (ctx : Ctx) :
    Ctx.lookup k (Ctx.set name v ctx) =
      if name = k then some v else Ctx.lookup k ctx := by
  induction ctx with
  | nil => simp [Ctx.set, Ctx.lookup]
  | cons p rest ih =>
      obtain ⟨k', w⟩ := p
      by_cases h1 : k' = name
      · subst h1
        by_cases h2 : k' = k
        · subst h2; simp [Ctx.set, Ctx.lookup]
        · simp [Ctx.set, Ctx.lookup, h2, Ne.symm h2]
      · by_cases h2 : k' = k
        · subst h2
          simp [Ctx.set, Ctx.lookup, h1, Ne.symm h1]
        · simp [Ctx.set, Ctx.lookup, h1, h2, ih]

theorem Ctx.lookup_set_self (name : String) (v : Value) (ctx : Ctx) :
    Ctx.lookup name (Ctx.set name v ctx) = some v := by
  simp [Ctx.lookup_set]

theorem Ctx.lookup_erase (k name : String) (ctx : Ctx) :
    Ctx.lookup k (Ctx.erase name ctx) =
      if name = k then none else Ctx.lookup k ctx := by
  induction ctx with
  | nil => simp [Ctx.erase, Ctx.lookup]
  | cons p rest ih =>
      obtain ⟨k', w⟩ := p
      by_cases h1 : k' = name
      · subst h1
        by_cases h2 : k' = k
        · subst h2; simp [Ctx.erase, Ctx.lookup, ih]
        · simp [Ctx.erase, Ctx.lookup, h2, Ne.symm h2, ih]
      · by_cases h2 : k' = k
        · subst h2
          simp [Ctx.erase, Ctx.lookup, h1, Ne.symm h1]
        · simp [Ctx.erase, Ctx.lookup, h1, h2, ih]

theorem Ctx.lookup_erase_self (name : String) (ctx : Ctx) :
    Ctx.lookup name (Ctx.erase name ctx) = none := by
  simp [Ctx.lookup_erase]

theorem Ctx.erase_set_of_unbound (name : String) (v : Value) (ctx : Ctx)
    (h : Ctx.lookup name ctx = none) :
    Ctx.erase name (Ctx.set name v ctx) = ctx := by
  induction ctx with
  | nil => simp [Ctx.set, Ctx.erase]
  | cons p rest ih =>
      obtain ⟨k', w⟩ := p
      simp only [Ctx.lookup] at h
      by_cases h1 : k' = name
      · simp [h1] at h
      · simp only [beq_iff_eq, h1, if_false] at h
        simp [Ctx.set, Ctx.erase, h1, ih h]

/-! ### Loop range lemmas -/

theorem intRange_eq_nil (loopStart loopEnd : Int) (h : loopEnd ≤ loopStart) :
    intRange loopStart loopEnd = [] := by
  unfold intRange
  have h0 : (loopEnd - loopStart).toNat = 0 := by omega
  simp [h0]

theorem intRange_eq_cons (loopStart loopEnd : Int) (h : loopStart < loopEnd) :
    intRange loopStart loopEnd = loopStart :: intRange (loopStart + 1) loopEnd := by
  unfold intRange
  have h1 : (loopEnd - loopStart).toNat = (loopEnd - (loopStart + 1)).toNat + 1 := by
    omega
  rw [h1, List.range_succ_eq_map, List.map_cons, List.map_map]
  have h2 : ((fun j : Nat => loopStart + (j : Int)) ∘ Nat.succ) =
      (fun j : Nat => (loopStart + 1) + (j : Int)) := by
    funext j
    simp only [Function.comp_apply]
    push_cast
    ring
  rw [h2]
  simp

theorem intRange_length (loopStart loopEnd : Int) :
    (intRange loopStart loopEnd).length = (loopEnd - loopStart).toNat := by
  simp [intRange]

/-! ### The context is restored exactly by every successful render -/

theorem loopIter_restore (f : Ctx → RenderResult) (v : String)
    (hf : ∀ c out c', f c = .ok (out, c') → c' = c) :
    ∀ (is : List Int) (ctx : Ctx) (out : String) (ctx' : Ctx),
      Ctx.lookup v ctx = none → loopIter f v is ctx = .ok (out, ctx') →
      ctx' = ctx := by
  intro is
  induction is with
  | nil =>
      intro ctx out ctx' _hv h
      simp only [loopIter, Except.ok.injEq, Prod.mk.injEq] at h
      exact h.2.symm
  | cons i rest ih =>
      intro ctx out ctx' hv h
      simp only [loopIter] at h
      cases hb : f (Ctx.set v (.IntValue i) ctx) with
      | error e => simp [hb] at h
      | ok p =>
          obtain ⟨s1, c1⟩ := p
          have hc1 : c1 = Ctx.set v (.IntValue i) ctx := hf _ _ _ hb
          subst hc1
          simp only [hb, Ctx.erase_set_of_unbound v (Value.IntValue i) ctx hv] at h
          cases hrest : loopIter f v rest ctx with
          | error e => simp [hrest] at h
          | ok q =>
              obtain ⟨s2, c2⟩ := q
              simp only [hrest, Except.ok.injEq, Prod.mk.injEq] at h
              rw [← h.2]
              exact ih ctx s2 c2 hv hrest

mutual

theorem render_restore : ∀ (node : ControlSection) (ctx : Ctx) (out : String)
    (ctx' : Ctx), node.render ctx = .ok (out, ctx') → ctx' = ctx
  | .Code t, ctx, out, ctx', h => by
      simp only [ControlSection.render] at h
      cases hd : doSubstitutions t ctx with
      | error e => rw [hd] at h; simp at h
      | ok s =>
          rw [hd] at h
          simp only [Except.ok.injEq, Prod.mk.injEq] at h
          exact h.2.symm
  | .Root sections, ctx, out, ctx', h => by
      simp only [ControlSection.render] at h
      exact renderSections_restore sections ctx out ctx' h
  | .IfSection isNeg variableName sections, ctx, out, ctx', h => by
      simp only [ControlSection.render] at h
      by_cases hc : computeExpression isNeg variableName ctx
      · rw [if_pos hc] at h
        exact renderSections_restore sections ctx out ctx' h
      · rw [if_neg hc] at h
        simp only [Except.ok.injEq, Prod.mk.injEq] at h
        exact h.2.symm
  | .ForSection varName loopStart loopEnd sections, ctx, out, ctx', h => by
      simp only [ControlSection.render] at h
      by_cases hb : (Ctx.lookup varName ctx).isSome
      · rw [if_pos hb] at h; simp at h
      · rw [if_neg hb] at h
        have hv : Ctx.lookup varName ctx = none := by
          cases hl : Ctx.lookup varName ctx with
          | none => rfl
          | some w => rw [hl] at hb; simp at hb
        exact loopIter_restore (fun c => renderSections sections c) varName
          (fun c o c' hh => renderSections_restore sections c o c' hh)
          (intRange loopStart loopEnd) ctx out ctx' hv h

theorem renderSections_restore : ∀ (ss : List ControlSection) (ctx : Ctx)
    (out : String) (ctx' : Ctx), renderSections ss ctx = .ok (out, ctx') →
    ctx' = ctx
  | [], ctx, out, ctx', h => by
      simp only [renderSections, Except.ok.injEq, Prod.mk.injEq] at h
      exact h.2.symm
  | s :: rest, ctx, out, ctx', h => by
      simp only [renderSections] at h
      cases h1 : s.render ctx with
      | error e => simp [h1] at h
      | ok p =>
          obtain ⟨s1, c1⟩ := p
          have hc1 : c1 = ctx := render_restore s ctx s1 c1 h1
          cases h2 : renderSections rest c1 with
          | error e => simp [h1, h2] at h
          | ok q =>
              obtain ⟨s2, c2⟩ := q
              simp only [h1, h2, Except.ok.injEq, Prod.mk.injEq] at h
              have hc2 : c2 = c1 := renderSections_restore rest c1 s2 c2 h2
              rw [← h.2, hc2, hc1]

end

/-! ### Unfolding lemmas for the substitution scanner -/

theorem scanSub_cons_none_eq (c : Char) (rest : List Char) (ctx : Ctx)
    (hne : ∀ r, c = '{' → rest = '{' :: r → False) :
    scanSub (c :: rest) none ctx =
      match scanSub rest none ctx with
      | .error e => .error e
      | .ok tail => .ok (c :: tail) := by
  rcases rest with _ | ⟨d, rest⟩
  · simp only [scanSub]
  · by_cases hc : c = '{'
    · by_cases hd : d = '{'
      · exact (hne rest hc (by rw [hd])).elim
      · subst hc
        simp [scanSub, hd]
    · by_cases hd : d = '{'
      · subst hd
        simp [scanSub, hc]
      · simp [scanSub, hc, hd]

theorem scanSub_cons_some_eq (c : Char) (rest acc : List Char) (ctx : Ctx)
    (hne : ∀ r, c = '}' → rest = '}' :: r → False) :
    scanSub (c :: rest) (some acc) ctx = scanSub rest (some (c :: acc)) ctx := by
  rcases rest with _ | ⟨d, rest⟩
  · simp only [scanSub]
  · by_cases hc : c = '}'
    · by_cases hd : d = '}'
      · exact (hne rest hc (by rw [hd])).elim
      · subst hc
        simp [scanSub, hd]
    · by_cases hd : d = '}'
      · subst hd
        simp [scanSub, hc]
      · simp [scanSub, hc, hd]

/-! ### Congruence: rendering depends on the context only through lookup -/

theorem Ctx.Equiv.rfl (a : Ctx) : Ctx.Equiv a a := fun _ => Eq.refl _

theorem Ctx.set_congr (name : String) (v : Value) (a b : Ctx)
    (h : Ctx.Equiv a b) : Ctx.Equiv (Ctx.set name v a) (Ctx.set name v b) := by
  intro k
  rw [Ctx.lookup_set, Ctx.lookup_set, h k]

theorem Ctx.erase_congr (name : String) (a b : Ctx) (h : Ctx.Equiv a b) :
    Ctx.Equiv (Ctx.erase name a) (Ctx.erase name b) := by
  intro k
  rw [Ctx.lookup_erase, Ctx.lookup_erase, h k]

theorem scanSub_congr : ∀ (cs : List Char) (mode : Option (List Char)) (a : Ctx),
    ∀ b : Ctx, Ctx.Equiv a b → scanSub cs mode a = scanSub cs mode b := by
  intro cs mode a
  induction cs, mode, a using scanSub.induct with
  | case1 ctx => intro b h; rfl
  | case2 acc ctx => intro b h; rfl
  | case3 rest ctx ih =>
      intro b h
      simp only [scanSub]
      exact ih b h
  | case4 rest acc ctx hl =>
      intro b h
      have hb : Ctx.lookup (trimChars acc.reverse).asString b = none := by
        rw [← h _, hl]
      simp only [scanSub, hl, hb]
  | case5 rest acc ctx v hl e hrec ih =>
      intro b h
      have hb : Ctx.lookup (trimChars acc.reverse).asString b = some v := by
        rw [← h _, hl]
      simp only [scanSub, hl, hb, ih b h]
  | case6 rest acc ctx v hl tail hrec ih =>
      intro b h
      have hb : Ctx.lookup (trimChars acc.reverse).asString b = some v := by
        rw [← h _, hl]
      simp only [scanSub, hl, hb, ih b h]
  | case7 c rest ctx hne e hrec ih =>
      intro b h
      rw [scanSub_cons_none_eq c rest ctx hne, scanSub_cons_none_eq c rest b hne,
        ih b h]
  | case8 c rest ctx hne tail hrec ih =>
      intro b h
      rw [scanSub_cons_none_eq c rest ctx hne, scanSub_cons_none_eq c rest b hne,
        ih b h]
  | case9 c rest acc ctx hne ih =>
      intro b h
      rw [scanSub_cons_some_eq c rest acc ctx hne, scanSub_cons_some_eq c rest acc b hne]
      exact ih b h

theorem doSubstitutions_congr (t : String) (a b : Ctx) (h : Ctx.Equiv a b) :
    doSubstitutions t a = doSubstitutions t b := by
  unfold doSubstitutions
  rw [scanSub_congr t.data none a b h]

theorem computeExpression_congr (isNeg : Bool) (name : String) (a b : Ctx)
    (h : Ctx.Equiv a b) :
    computeExpression isNeg name a = computeExpression isNeg name b := by
  unfold computeExpression
  rw [h name]

theorem loopIter_congr (f g : Ctx → RenderResult) (v : String)
    (hfg : ∀ c c', Ctx.Equiv c c' → ResultEquiv (f c) (g c')) :
    ∀ (is : List Int) (a b : Ctx), Ctx.Equiv a b →
      ResultEquiv (loopIter f v is a) (loopIter g v is b) := by
  intro is
  induction is with
  | nil =>
      intro a b h
      simp only [loopIter]
      exact ⟨rfl, h⟩
  | cons i rest ih =>
      intro a b h
      simp only [loopIter]
      have h1 := hfg (Ctx.set v (.IntValue i) a) (Ctx.set v (.IntValue i) b)
        (Ctx.set_congr v (.IntValue i) a b h)
      cases hfa : f (Ctx.set v (.IntValue i) a) with
      | error ea =>
          cases hgb : g (Ctx.set v (.IntValue i) b) with
          | error eb =>
              rw [hfa, hgb] at h1
              simp only [hfa, hgb]
              exact h1
          | ok q =>
              rw [hfa, hgb] at h1
              simp only [ResultEquiv] at h1
      | ok p =>
          obtain ⟨s1, c1⟩ := p
          cases hgb : g (Ctx.set v (.IntValue i) b) with
          | error eb =>
              rw [hfa, hgb] at h1
              simp only [ResultEquiv] at h1
          | ok q =>
              obtain ⟨s1', c1'⟩ := q
              rw [hfa, hgb] at h1
              simp only [ResultEquiv] at h1
              obtain ⟨hstr, hctx⟩ := h1
              simp only [hfa, hgb]
              have h2 := ih (Ctx.erase v c1) (Ctx.erase v c1')
                (Ctx.erase_congr v c1 c1' hctx)
              cases h2a : loopIter f v rest (Ctx.erase v c1) with
              | error ea =>
                  cases h2b : loopIter g v rest (Ctx.erase v c1') with
                  | error eb =>
                      rw [h2a, h2b] at h2
                      simp only [h2a, h2b]
                      exact h2
                  | ok q2 =>
                      rw [h2a, h2b] at h2
                      simp only [ResultEquiv] at h2
              | ok p2 =>
                  obtain ⟨s2, c2⟩ := p2
                  cases h2b : loopIter g v rest (Ctx.erase v c1') with
                  | error eb =>
                      rw [h2a, h2b] at h2
                      simp only [ResultEquiv] at h2
                  | ok q2 =>
                      obtain ⟨s2', c2'⟩ := q2
                      rw [h2a, h2b] at h2
                      simp only [ResultEquiv] at h2
                      obtain ⟨hstr2, hctx2⟩ := h2
                      simp only [h2a, h2b, ResultEquiv]
                      exact ⟨by rw [hstr, hstr2], hctx2⟩

mutual

theorem render_congr : ∀ (node : ControlSection) (a b : Ctx), Ctx.Equiv a b →
    ResultEquiv (node.render a) (node.render b)
  | .Code t, a, b, h => by
      simp only [ControlSection.render]
      have hs : doSubstitutions t a = doSubstitutions t b :=
        doSubstitutions_congr t a b h
      cases hd : doSubstitutions t b with
      | error e =>
          rw [hs, hd]
          exact ⟨rfl, h⟩
      | ok s =>
          rw [hs, hd]
          exact ⟨rfl, h⟩
  | .Root ss, a, b, h => by
      simp only [ControlSection.render]
      exact renderSections_congr ss a b h
  | .IfSection n v ss, a, b, h => by
      simp only [ControlSection.render, computeExpression_congr n v a b h]
      by_cases hc : computeExpression n v b
      · rw [if_pos hc, if_pos hc]
        exact renderSections_congr ss a b h
      · rw [if_neg hc, if_neg hc]
        exact ⟨rfl, h⟩
  | .ForSection v s e ss, a, b, h => by
      simp only [ControlSection.render, h v]
      by_cases hb : (Ctx.lookup v b).isSome
      · rw [if_pos hb, if_pos hb]
        exact ⟨rfl, h⟩
      · rw [if_neg hb, if_neg hb]
        exact loopIter_congr (fun c => renderSections ss c)
          (fun c => renderSections ss c) v
          (fun c c' hcc => renderSections_congr ss c c' hcc) (intRange s e) a b h

theorem renderSections_congr : ∀ (ss : List ControlSection) (a b : Ctx),
    Ctx.Equiv a b → ResultEquiv (renderSections ss a) (renderSections ss b)
  | [], a, b, h => by
      simp only [renderSections]
      exact ⟨rfl, h⟩
  | s :: rest, a, b, h => by
      simp only [renderSections]
      have h1 := render_congr s a b h
      cases ha : s.render a with
      | error ea =>
          cases hb2 : s.render b with
          | error eb =>
              rw [ha, hb2] at h1
              simp only [ha, hb2]
              exact h1
          | ok q =>
              rw [ha, hb2] at h1
              simp only [ResultEquiv] at h1
      | ok p =>
          obtain ⟨s1, c1⟩ := p
          cases hb2 : s.render b with
          | error eb =>
              rw [ha, hb2] at h1
              simp only [ResultEquiv] at h1
          | ok q =>
              obtain ⟨s1', c1'⟩ := q
              rw [ha, hb2] at h1
              simp only [ResultEquiv] at h1
              obtain ⟨hstr, hctx⟩ := h1
              simp only [ha, hb2]
              have h2 := renderSections_congr rest c1 c1' hctx
              cases h2a : renderSections rest c1 with
              | error ea =>
                  cases h2b : renderSections rest c1' with
                  | error eb =>
                      rw [h2a, h2b] at h2
                      simp only [h2a, h2b]
                      exact h2
                  | ok q2 =>
                      rw [h2a, h2b] at h2
                      simp only [ResultEquiv] at h2
              | ok p2 =>
                  obtain ⟨s2, c2⟩ := p2
                  cases h2b : renderSections rest c1' with
                  | error eb =>
                      rw [h2a, h2b] at h2
                      simp only [ResultEquiv] at h2
                  | ok q2 =>
                      obtain ⟨s2', c2'⟩ := q2
                      rw [h2a, h2b] at h2
                      simp only [ResultEquiv] at h2
                      obtain ⟨hstr2, hctx2⟩ := h2
                      simp only [h2a, h2b, ResultEquiv]
                      exact ⟨by rw [hstr, hstr2], hctx2⟩

end

/-! ### Termination: the fuel-instrumented traversal converges within `cost` -/

theorem cost_pos : ∀ node : ControlSection, 0 < cost node := by
  intro node
  cases node <;> simp [cost]

theorem renderSectionsFuel_complete_of (fuel : Nat)
    (hP : ∀ node ctx, cost node ≤ fuel →
      renderFuel fuel node ctx = some (node.render ctx)) :
    ∀ (ss : List ControlSection) (ctx : Ctx), costList ss ≤ fuel →
      renderSectionsFuel fuel ss ctx = some (renderSections ss ctx) := by
  intro ss
  induction ss with
  | nil =>
      intro ctx _h
      simp [renderSectionsFuel, renderSections]
  | cons s rest ih =>
      intro ctx h
      simp only [costList] at h
      have hs : cost s ≤ fuel := by omega
      have hr : costList rest ≤ fuel := by omega
      simp only [renderSectionsFuel, renderSections, hP s ctx hs]
      cases hsr : s.render ctx with
      | error e => simp
      | ok p =>
          obtain ⟨s1, c1⟩ := p
          simp only [ih c1 hr]
          cases h2 : renderSections rest c1 with
          | error e => simp
          | ok q =>
              obtain ⟨s2, c2⟩ := q
              simp

theorem loopIterFuel_complete_of (fuel : Nat)
    (hQ : ∀ (ss : List ControlSection) (ctx : Ctx), costList ss ≤ fuel →
      renderSectionsFuel fuel ss ctx = some (renderSections ss ctx)) :
    ∀ (v : String) (body : List ControlSection) (is : List Int) (ctx : Ctx),
      is.length * (1 + costList body) ≤ fuel →
      loopIterFuel fuel v body is ctx =
        some (loopIter (fun c => renderSections body c) v is ctx) := by
  intro v body is
  induction is with
  | nil =>
      intro ctx _h
      simp [loopIterFuel, loopIter]
  | cons i rest ih =>
      intro ctx h
      simp only [List.length_cons] at h
      have h1 : 1 + costList body ≤ fuel :=
        le_trans (Nat.le_mul_of_pos_left _ (Nat.succ_pos rest.length)) h
      have hb : costList body ≤ fuel := by omega
      have hrest : rest.length * (1 + costList body) ≤ fuel :=
        le_trans (Nat.mul_le_mul_right _ (Nat.le_succ _)) h
      simp only [loopIterFuel, loopIter,
        hQ body (Ctx.set v (.IntValue i) ctx) hb]
      cases hbody : renderSections body (Ctx.set v (.IntValue i) ctx) with
      | error e => simp
      | ok p =>
          obtain ⟨s1, c1⟩ := p
          simp only [ih (Ctx.erase v c1) hrest]
          cases h2 : loopIter (fun c => renderSections body c) v rest
              (Ctx.erase v c1) with
          | error e => simp
          | ok q =>
              obtain ⟨s2, c2⟩ := q
              simp

theorem renderFuel_complete : ∀ (fuel : Nat) (node : ControlSection) (ctx : Ctx),
    cost node ≤ fuel → renderFuel fuel node ctx = some (node.render ctx) := by
  intro fuel
  induction fuel with
  | zero =>
      intro node ctx h
      exact absurd h (by have := cost_pos node; omega)
  | succ n ih =>
      intro node ctx h
      have hQ := renderSectionsFuel_complete_of n ih
      cases node with
      | Code t => simp [renderFuel, ControlSection.render]
      | Root ss =>
          simp only [cost] at h
          simp only [renderFuel, ControlSection.render]
          exact hQ ss ctx (by omega)
      | IfSection ng v ss =>
          simp only [cost] at h
          simp only [renderFuel, ControlSection.render]
          by_cases hc : computeExpression ng v ctx
          · rw [if_pos hc, if_pos hc]
            exact hQ ss ctx (by omega)
          · rw [if_neg hc, if_neg hc]
      | ForSection v s e ss =>
          simp only [cost] at h
          simp only [renderFuel, ControlSection.render]
          by_cases hb : (Ctx.lookup v ctx).isSome
          · rw [if_pos hb, if_pos hb]
          · rw [if_neg hb, if_neg hb]
            apply loopIterFuel_complete_of n hQ
            rw [intRange_length]
            omega

/-! ### Substitution-failure lemmas -/

theorem containsClose_cons_false (c : Char) (rest : List Char)
    (h : containsClose (c :: rest) = false) :
    containsClose rest = false ∧ (∀ r, c = '}' → rest = '}' :: r → False) := by
  rcases rest with _ | ⟨d, r⟩
  · exact ⟨rfl, by intro r hc hr; cases hr⟩
  · by_cases hc : c = '}'
    · by_cases hd : d = '}'
      · subst hc
        subst hd
        simp [containsClose] at h
      · subst hc
        refine ⟨?_, ?_⟩
        · rw [show containsClose ('}' :: d :: r) = containsClose (d :: r) from
            by simp [containsClose, hd]] at h
          exact h
        · intro r' _hc hr'
          injection hr' with h1 _h2
          exact hd h1
    · refine ⟨?_, ?_⟩
      · rw [show containsClose (c :: d :: r) = containsClose (d :: r) from
          by simp [containsClose, hc]] at h
        exact h
      · intro r' hc' _hr'
        exact hc hc'

theorem scanSub_unterminated : ∀ (cs acc : List Char) (ctx : Ctx),
    containsClose cs = false →
    scanSub cs (some acc) ctx = .error "unterminated substitution tag" := by
  intro cs
  induction cs with
  | nil => intro acc ctx _h; rfl
  | cons c rest ih =>
      intro acc ctx h
      obtain ⟨hrest, hne⟩ := containsClose_cons_false c rest h
      rw [scanSub_cons_some_eq c rest acc ctx hne]
      exact ih (c :: acc) ctx hrest

theorem scanSub_reaches_close : ∀ (name acc cs : List Char) (ctx : Ctx),
    (∀ c ∈ name, c ≠ '}') →
    scanSub (name ++ cs) (some acc) ctx =
      scanSub cs (some (name.reverse ++ acc)) ctx := by
  intro name
  induction name with
  | nil => intro acc cs ctx _h; simp
  | cons c name ih =>
      intro acc cs ctx h
      have hc : c ≠ '}' := h c (List.mem_cons_self c name)
      rw [List.cons_append,
        scanSub_cons_some_eq c (name ++ cs) acc ctx (fun _r hcc _ => hc hcc),
        ih (c :: acc) cs ctx (fun x hx => h x (List.mem_cons_of_mem _ hx))]
      simp [List.reverse_cons, List.append_assoc]

/-! ### The claims -/

/-- C1: for a `ForSection` whose loop variable is unbound in the context,
`render(ctx)` concatenates, for `i` from `loopStart` up to but excluding
`loopEnd`, the in-order rendering of the children with the loop variable
bound to `IntValue i` in the context during the iteration, unbinding it
after each iteration: an empty range yields the empty string with the
context unchanged; a non-empty range unrolls to the first iteration — the
children rendered in order on the context extended with
`varName ↦ IntValue loopStart` — followed by the remaining loop run on the
resulting context with `varName` erased; while the iteration runs the
variable reads back as `IntValue loopStart`, and after the erase it is
absent again. -/
theorem claim_c1_forSection_iteration (varName : String)
    (loopStart loopEnd : Int) (sections : List ControlSection) (ctx : Ctx)
    (h : Ctx.lookup varName ctx = none) :
    (loopEnd ≤ loopStart →
      ControlSection.render (.ForSection varName loopStart loopEnd sections) ctx =
        .ok ("", ctx)) ∧
    (loopStart < loopEnd →
      ControlSection.render (.ForSection varName loopStart loopEnd sections) ctx =
        match renderSections sections (Ctx.set varName (.IntValue loopStart) ctx) with
        | .error e => .error e
        | .ok (str1, ctx1) =>
          match ControlSection.render
              (.ForSection varName (loopStart + 1) loopEnd sections)
              (Ctx.erase varName ctx1) with
          | .error e => .error e
          | .ok (str2, ctx2) => .ok (str1 ++ str2, ctx2)) ∧
    Ctx.lookup varName (Ctx.set varName (.IntValue loopStart) ctx) =
      some (.IntValue loopStart) ∧
    (∀ c : Ctx, Ctx.lookup varName (Ctx.erase varName c) = none) := by
  have hb : ¬ (Ctx.lookup varName ctx).isSome = true := by rw [h]; simp
  refine ⟨?_, ?_, Ctx.lookup_set_self _ _ _, fun c => Ctx.lookup_erase_self _ _⟩
  · intro hle
    simp only [ControlSection.render, if_neg hb, intRange_eq_nil _ _ hle, loopIter]
  · intro hlt
    simp only [ControlSection.render, if_neg hb, intRange_eq_cons _ _ hlt, loopIter]
    cases hbody : renderSections sections (Ctx.set varName (.IntValue loopStart) ctx) with
    | error e => simp only [hbody]
    | ok p =>
        obtain ⟨s1, c1⟩ := p
        have hb2 : ¬ (Ctx.lookup varName (Ctx.erase varName c1)).isSome = true := by
          rw [Ctx.lookup_erase_self]; simp
        simp only [hbody, ControlSection.render, if_neg hb2]

/-- C1 witness: the theorem applied to a loop over `i` with an empty body
and an empty context, whose range `[2, 2)` is empty. -/
theorem claim_c1_witness :
    Ctx.lookup "i" ([] : Ctx) = none ∧
    ControlSection.render (.ForSection "i" 2 2 [.Code "x"]) [] = .ok ("", []) :=
  ⟨rfl, (claim_c1_forSection_iteration "i" 2 2 [.Code "x"] [] rfl).1 le_rfl⟩

/-- C2 counterexample: rendering `ForSection x ∈ [0,2)` whose body is another
`ForSection` over the same name `x` raises a `RenderError` from inside the
loop body, and the context carried by the error still binds the loop
variable `x` — the pre-call context was empty, so the loop variable is not
absent afterwards and the context is not restored to its pre-call shape,
contradicting the claim for the error case. -/
theorem claim_c2_counterexample :
    ControlSection.render (.ForSection "x" 0 2 [.ForSection "x" 0 1 []]) [] =
      .error ("variable x already exists in this context",
        [("x", Value.IntValue 0)]) ∧
    Ctx.lookup "x" [("x", Value.IntValue 0)] = some (Value.IntValue 0) := by
  constructor
  · rfl
  · rfl

/-- C2 (amended): after a **successful** `render` of any node — in particular
any `ForSection` — the context is restored exactly to its pre-call shape, so
the loop variable is absent again; when `render` raises a `RenderError` from
inside a loop body, the loop variable may remain bound in the context
accompanying the error (no cleanup happens on the error path). -/
theorem claim_c2_success_restores (node : ControlSection) (ctx : Ctx)
    (out : String) (ctx' : Ctx)
    (h : ControlSection.render node ctx = .ok (out, ctx')) : ctx' = ctx :=
  render_restore node ctx out ctx' h

/-- C2 witness: the amended theorem applied to a successful `for` render on
the empty context. -/
theorem claim_c2_witness :
    ControlSection.render (.ForSection "x" 0 2 []) [] = .ok ("", []) ∧
    ([] : Ctx) = [] :=
  ⟨rfl, claim_c2_success_restores (.ForSection "x" 0 2 []) [] "" [] rfl⟩

/-- C3: rendering a `ForSection` whose loop-variable name is already bound in
the context fails with the `render_error` "variable ... already exists in
this context"; the error carries the context unchanged, so the existing
binding is neither shadowed nor overwritten. -/
theorem claim_c3_collision_error (varName : String) (val : Value)
    (loopStart loopEnd : Int) (sections : List ControlSection) (ctx : Ctx)
    (h : Ctx.lookup varName ctx = some val) :
    ControlSection.render (.ForSection varName loopStart loopEnd sections) ctx =
      .error ("variable " ++ varName ++ " already exists in this context", ctx) := by
  have hb : (Ctx.lookup varName ctx).isSome = true := by rw [h]; rfl
  simp only [ControlSection.render, if_pos hb]

/-- C3 witness: the theorem applied to a context binding `x ↦ IntValue 7`. -/
theorem claim_c3_witness :
    Ctx.lookup "x" [("x", Value.IntValue 7)] = some (Value.IntValue 7) ∧
    ControlSection.render (.ForSection "x" 0 3 []) [("x", Value.IntValue 7)] =
      .error ("variable x already exists in this context",
        [("x", Value.IntValue 7)]) :=
  ⟨rfl, claim_c3_collision_error "x" (Value.IntValue 7) 0 3 [] _ rfl⟩

/-- C4: `IfSection::render` returns the in-order concatenation of the
children (via `renderSections`) when the condition holds and the empty
string (with the context unchanged) otherwise; the condition is "the
variable exists as a key in the context and its `isTrue()` holds", inverted
when the negation flag is set; a variable absent from the context counts as
false and is not an error: plain `if` renders empty, `if not` renders the
body. -/
theorem claim_c4_ifSection (isNeg : Bool) (variableName : String)
    (sections : List ControlSection) (ctx : Ctx) :
    (ControlSection.render (.IfSection isNeg variableName sections) ctx =
      if computeExpression isNeg variableName ctx then renderSections sections ctx
      else .ok ("", ctx)) ∧
    (computeExpression isNeg variableName ctx = true ↔
      (if isNeg then
        ¬ ∃ v, Ctx.lookup variableName ctx = some v ∧ v.isTrue = true
      else
        ∃ v, Ctx.lookup variableName ctx = some v ∧ v.isTrue = true)) ∧
    (Ctx.lookup variableName ctx = none →
      (ControlSection.render (.IfSection false variableName sections) ctx =
        .ok ("", ctx)) ∧
      (ControlSection.render (.IfSection true variableName sections) ctx =
        renderSections sections ctx)) := by
  refine ⟨by simp only [ControlSection.render], ?_, ?_⟩
  · unfold computeExpression
    cases hl : Ctx.lookup variableName ctx with
    | none => cases isNeg <;> simp
    | some v => cases isNeg <;> cases hv : v.isTrue <;> simp [hv]
  · intro hnone
    have hc0 : computeExpression false variableName ctx = false := by
      unfold computeExpression
      rw [hnone]
      rfl
    have hc1 : computeExpression true variableName ctx = true := by
      unfold computeExpression
      rw [hnone]
      rfl
    constructor
    · simp [ControlSection.render, hc0]
    · simp [ControlSection.render, hc1]

/-- C4 witness: `if not flag` with `flag` unbound renders its body. -/
theorem claim_c4_witness :
    Ctx.lookup "flag" ([] : Ctx) = none ∧
    ControlSection.render (.IfSection true "flag" [.Code "empty"]) [] =
      renderSections [.Code "empty"] [] :=
  ⟨rfl, ((claim_c4_ifSection true "flag" [.Code "empty"] []).2.2 rfl).2⟩

/-- C5: a `ForSection` with `loopStart ≥ loopEnd` whose loop variable is not
already bound renders to the empty string, whatever the body, and returns
the context unchanged. -/
theorem claim_c5_empty_range (varName : String) (loopStart loopEnd : Int)
    (sections : List ControlSection) (ctx : Ctx)
    (hv : Ctx.lookup varName ctx = none) (hrange : loopStart ≥ loopEnd) :
    ControlSection.render (.ForSection varName loopStart loopEnd sections) ctx =
      .ok ("", ctx) := by
  have hb : ¬ (Ctx.lookup varName ctx).isSome = true := by rw [hv]; simp
  simp only [ControlSection.render, if_neg hb, intRange_eq_nil _ _ hrange, loopIter]

/-- C5 witness: the theorem applied to the empty range `[3, 1)` with a
non-empty body. -/
theorem claim_c5_witness :
    Ctx.lookup "i" ([] : Ctx) = none ∧ (3 : Int) ≥ 1 ∧
    ControlSection.render (.ForSection "i" 3 1 [.Code "body"]) [] = .ok ("", []) :=
  ⟨rfl, by norm_num,
    claim_c5_empty_range "i" 3 1 [.Code "body"] [] rfl (by norm_num)⟩

/-- C6: `IntValue.isTrue` holds iff the integer is nonzero,
`FloatValue.isTrue` holds iff the float is not equal to `0.0` (IEEE
comparison, as computed by `==`), and `StringValue.isTrue` holds iff the
string is non-empty. -/
theorem claim_c6_isTrue (i : Int) (f : Float) (s : String) :
    (Value.isTrue (.IntValue i) = true ↔ i ≠ 0) ∧
    (Value.isTrue (.FloatValue f) = true ↔ (f == 0.0) = false) ∧
    (Value.isTrue (.StringValue s) = true ↔ s ≠ "") := by
  refine ⟨?_, ?_, ?_⟩
  · simp [Value.isTrue]
  · simp [Value.isTrue, bne]
  · rw [show Value.isTrue (.StringValue s) = !s.isEmpty from rfl, Bool.not_eq_true',
      Bool.eq_false_iff]
    exact not_congr (String.isEmpty_iff s)

/-- C7: substitution fails with a `RenderError` on an unterminated opening
delimiter (no closing delimiter anywhere after it) and on an identifier that
is unbound in the context; in particular the fragment consisting of a tag
around `missing`, rendered through `Code::render` with no bindings, fails. -/
theorem claim_c7_substitution_errors :
    (∀ (cs acc : List Char) (ctx : Ctx), containsClose cs = false →
      scanSub cs (some acc) ctx = .error "unterminated substitution tag") ∧
    (∀ (rest : List Char) (ctx : Ctx), containsClose rest = false →
      scanSub ('{' :: '{' :: rest) none ctx =
        .error "unterminated substitution tag") ∧
    (∀ (name post : List Char) (ctx : Ctx), (∀ c ∈ name, c ≠ '}') →
      Ctx.lookup (trimChars name).asString ctx = none →
      scanSub ('{' :: '{' :: (name ++ '}' :: '}' :: post)) none ctx =
        .error ("variable " ++ (trimChars name).asString ++ " not found")) ∧
    doSubstitutions "\x7b\x7bmissing\x7d\x7d" [] =
      .error "variable missing not found" ∧
    ControlSection.render (.Code "\x7b\x7bmissing\x7d\x7d") [] =
      .error ("variable missing not found", []) := by
  refine ⟨scanSub_unterminated, ?_, ?_, rfl, rfl⟩
  · intro rest ctx hrest
    have h1 : scanSub ('{' :: '{' :: rest) none ctx =
        scanSub rest (some []) ctx := by
      simp only [scanSub]
    rw [h1]
    exact scanSub_unterminated rest [] ctx hrest
  · intro name post ctx hname hl
    have h1 : scanSub ('{' :: '{' :: (name ++ '}' :: '}' :: post)) none ctx =
        scanSub (name ++ '}' :: '}' :: post) (some []) ctx := by
      simp only [scanSub]
    rw [h1, scanSub_reaches_close name [] ('}' :: '}' :: post) ctx hname]
    have h2 : (name.reverse ++ ([] : List Char)).reverse = name := by simp
    simp only [scanSub, h2, hl]

/-- C7 witness: the unterminated-tag part of the theorem applied to the
fragment `x` (inside an open tag) with the empty context. -/
theorem claim_c7_witness :
    containsClose ['x'] = false ∧
    scanSub ['x'] (some []) ([] : Ctx) = .error "unterminated substitution tag" :=
  ⟨rfl, claim_c7_substitution_errors.1 ['x'] [] [] rfl⟩

/-- C8: rendering always terminates — the fuel-instrumented traversal
`renderFuel`, which gives up (returns `none`) when its step budget runs out,
succeeds on every tree and context when given the finite budget `cost node`
computed from the tree's size and its integer loop ranges, and its result is
the total `render`'s result. -/
theorem claim_c8_termination (node : ControlSection) (ctx : Ctx) :
    renderFuel (cost node) node ctx = some (ControlSection.render node ctx) :=
  renderFuel_complete (cost node) node ctx (Nat.le_refl _)

/-- C9: rendering a `ForSection` whose loop-variable name is already bound
raises the `render_error` before any iteration runs: the error is produced
for every range, including empty ones (`loopEnd ≤ loopStart`, where the
iteration sequence is empty, shown by the second conjunct), with no output
and with the context carried by the error exactly the pre-call context. -/
theorem claim_c9_collision_atomic (varName : String) (val : Value)
    (loopStart loopEnd : Int) (sections : List ControlSection) (ctx : Ctx)
    (h : Ctx.lookup varName ctx = some val) :
    (ControlSection.render (.ForSection varName loopStart loopEnd sections) ctx =
      .error ("variable " ++ varName ++ " already exists in this context", ctx)) ∧
    (loopEnd ≤ loopStart → intRange loopStart loopEnd = []) := by
  have hb : (Ctx.lookup varName ctx).isSome = true := by rw [h]; rfl
  exact ⟨by simp only [ControlSection.render, if_pos hb],
    fun hle => intRange_eq_nil _ _ hle⟩

/-- C9 witness: the theorem applied to the empty range `[5, 5)` over a bound
variable `y`: the collision check fires even though no iteration would run. -/
theorem claim_c9_witness :
    Ctx.lookup "y" [("y", Value.IntValue 0)] = some (Value.IntValue 0) ∧
    ControlSection.render (.ForSection "y" 5 5 [.Code "b"]) [("y", Value.IntValue 0)] =
      .error ("variable y already exists in this context",
        [("y", Value.IntValue 0)]) ∧
    intRange 5 5 = [] := by
  have hmain := claim_c9_collision_atomic "y" (Value.IntValue 0) 5 5 [.Code "b"]
    [("y", Value.IntValue 0)] rfl
  exact ⟨rfl, hmain.1, hmain.2 le_rfl⟩

/-- C10: rendering is deterministic and depends on the context only as a
name→value map: rendering the same tree in two contexts that are equal as
maps produces identical output strings, or identical error messages, and
leaves the two final contexts equal as maps. -/
theorem claim_c10_deterministic (node : ControlSection) (ctx1 ctx2 : Ctx)
    (h : Ctx.Equiv ctx1 ctx2) :
    ResultEquiv (ControlSection.render node ctx1) (ControlSection.render node ctx2) :=
  render_congr node ctx1 ctx2 h

/-- C10 witness: the theorem applied to a small tree on the empty context. -/
theorem claim_c10_witness :
    Ctx.Equiv [] [] ∧
    ResultEquiv (ControlSection.render (.Root [.Code "hi"]) [])
      (ControlSection.render (.Root [.Code "hi"]) []) :=
  ⟨fun _k => rfl, claim_c10_deterministic (.Root [.Code "hi"]) [] [] (fun _k => rfl)⟩

end Jinja2CppLight
